import Mathlib

/-!
Verification of the update-delivery subsystem of a Telegram Bot API client
library (`bot.go`): the polling loop `GetUpdatesChan`, the webhook path
`ListenForWebhook` / `HandleUpdate`, the bounded output channel, and the
parameter construction of `GetUpdates`.

The Go source is shallowly embedded: the loop body becomes a pure function
on an explicit state, Go channels become a bounded-queue record with
blocking-send semantics, and fallible operations return `Except`/`Option`.
-/

namespace TgBotApi

/-- Modelled from the spec: the `Update` record (declared in a repository
file not present under `src/`). The spec describes it as an immutable
event record carrying a monotonically increasing integer sequence
identifier (`UpdateID` in the Go code, compared and incremented in
`GetUpdatesChan`) and exactly one populated event-kind payload variant. -/
inductive EventKind where
  | message
  | editedMessage
  | callbackQuery
  | inlineQuery
  | shippingQuery
  | preCheckoutQuery
  | poll
  deriving DecidableEq, Repr

/-- Modelled from the spec: one inbound event with its sequence identifier
(`UpdateID : Int`, a Go `int`) and its event-kind payload. -/
structure Update where
  UpdateID : Int
  payload : EventKind
  deriving DecidableEq, Repr

/-- Modelled from the spec: the `UpdateConfig` passed to `GetUpdates` and
`GetUpdatesChan` (declared in a repository file not present under `src/`).
Its fields `Offset`, `Limit`, `Timeout` are Go `int`s, read in
`GetUpdates` and mutated (`config.Offset = update.UpdateID + 1`) in
`GetUpdatesChan`. -/
structure UpdateConfig where
  Offset : Int
  Limit : Int
  Timeout : Int
  deriving DecidableEq, Repr

/-- One result of calling `bot.GetUpdates` inside the polling loop:
either an error (any transport or decode failure) or a batch of updates. -/
inductive FetchResult where
  | failure
  | success (batch : List Update)
  deriving DecidableEq, Repr

/-- The fixed retry delay of the polling loop:
`time.Sleep(time.Second * 3)` in `GetUpdatesChan`. -/
def retryDelaySeconds : Nat := 3

/-- The inner `for _, update := range updates` loop of `GetUpdatesChan`:
given the current `config.Offset` and the fetched batch, it returns the
offset after the batch and the list of updates sent to the channel, in
order.  Each update with `update.UpdateID >= config.Offset` sets
`config.Offset = update.UpdateID + 1` and is published; others are
skipped. -/
def processBatch (offset : Int) (updates : List Update) : Int × List Update :=
  match updates with
  | [] => (offset, [])
  | u :: rest =>
    if u.UpdateID ≥ offset then
      let r := processBatch (u.UpdateID + 1) rest
      (r.1, u :: r.2)
    else
      processBatch offset rest

/-- State of one polling session of `GetUpdatesChan`: the offset cursor
(`config.Offset`), the updates published to the output channel so far in
order, whether the output channel has been closed, and the total time
spent in retry sleeps (seconds). -/
structure LoopState where
  offset : Int
  published : List Update
  closed : Bool
  slept : Nat
  deriving DecidableEq, Repr

/-- The initial state of a polling session with a caller-supplied offset. -/
def initState (offset : Int) : LoopState :=
  { offset := offset, published := [], closed := false, slept := 0 }

/-- One iteration of the `for` loop in the `GetUpdatesChan` goroutine:
first the `select` on `bot.shutdownChannel` (`stop`); if not stopping,
the fetch either fails (log, sleep 3 seconds, `continue`) or succeeds and
the batch is folded through the offset check. A closed (terminated)
session never changes again. -/
def loopStep (stop : Bool) (fr : FetchResult) (s : LoopState) : LoopState :=
  if s.closed then s
  else if stop then { s with closed := true }
  else
    match fr with
    | .failure => { s with slept := s.slept + retryDelaySeconds }
    | .success batch =>
      let r := processBatch s.offset batch
      { s with offset := r.1, published := s.published ++ r.2 }

/-- Running the polling loop over a finite trace of iterations, each
giving the stop-signal observation and the fetch outcome of that
iteration. -/
def loopRun (trace : List (Bool × FetchResult)) (s : LoopState) : LoopState :=
  match trace with
  | [] => s
  | (stop, fr) :: rest => loopRun rest (loopStep stop fr s)

/-- A Go channel of `Update` (`make(chan Update, cap)`): a bounded FIFO
buffer with a capacity fixed at creation and a closed flag. -/
structure Chan where
  capacity : Nat
  buf : List Update
  closed : Bool
  deriving DecidableEq, Repr

/-- `make(chan Update, c)`: an open channel with capacity `c` and an
empty buffer. -/
def mkChan (c : Nat) : Chan :=
  { capacity := c, buf := [], closed := false }

/-- Go channel send semantics (`ch <- update`) on an open channel with no
waiting receiver: the value is appended to the buffer when there is room;
a send on a full channel blocks the producer — modelled as `none` — and
never drops the value. -/
def chanSend (c : Chan) (u : Update) : Option Chan :=
  if c.buf.length < c.capacity then some { c with buf := c.buf ++ [u] }
  else none

/-- A Go runtime panic relevant to this code. -/
inductive GoPanic where
  | closeOfClosedChannel
  deriving DecidableEq, Repr

/-- Go channel close semantics (`close(ch)`): closing an open channel
marks it closed and keeps its buffered values; closing an already closed
channel panics with `close of closed channel`. -/
def chanClose (c : Chan) : Except GoPanic Chan :=
  if c.closed then .error .closeOfClosedChannel
  else .ok { c with closed := true }

/-- The shutdown path of the `GetUpdatesChan` goroutine once the
`select` observes `bot.shutdownChannel`: the branch runs `close(ch)` and
then `return`s, which fires the goroutine's `defer close(ch)` on the same
channel. -/
def shutdownPath (ch : Chan) : Except GoPanic Chan := do
  let ch1 ← chanClose ch
  chanClose ch1

/-- The fields of `BotAPI` the update-delivery subsystem reads: the token,
the output buffer capacity, and the API endpoint. (`Self`, the HTTP
client and the shutdown channel are collaborators outside this model.) -/
structure BotAPI where
  Token : String
  Buffer : Nat
  apiEndpoint : String
  deriving DecidableEq, Repr

/-- `NewBotAPIWithClient`: constructs the `BotAPI` value with
`Buffer: 100`. (The subsequent `GetMe` call validating the token over the
network is outside this model; it does not touch `Buffer`.) -/
def NewBotAPIWithClient (token apiEndpoint : String) : BotAPI :=
  { Token := token, Buffer := 100, apiEndpoint := apiEndpoint }

/-- The channel created by `GetUpdatesChan`:
`ch := make(chan Update, bot.Buffer)`. -/
def GetUpdatesChanChannel (bot : BotAPI) : Chan :=
  mkChan bot.Buffer

/-- The channel created by `ListenForWebhook`:
`ch := make(chan Update, bot.Buffer)`. -/
def ListenForWebhookChannel (bot : BotAPI) : Chan :=
  mkChan bot.Buffer

/-- The two error outcomes of `HandleUpdate`: the explicit
`errors.New("wrong HTTP method required POST")` and an error returned by
the JSON decoder on the request body. -/
inductive HandleError where
  | wrongMethod
  | decodeError
  deriving DecidableEq, Repr

/-- An inbound webhook HTTP request as `HandleUpdate` inspects it: its
method string, and its body represented by the outcome of the standard
JSON decoder on it (`some u` when the body decodes to the update `u`,
`none` when decoding fails). The decoder itself is Go standard library,
an external collaborator of this code. -/
structure WebhookRequest where
  Method : String
  body : Option Update
  deriving DecidableEq, Repr

/-- `HandleUpdate`: rejects any method other than `"POST"` before looking
at the body, then decodes the body into an `Update`. -/
def HandleUpdate (r : WebhookRequest) : Except HandleError Update :=
  if r.Method ≠ "POST" then .error .wrongMethod
  else
    match r.body with
    | none => .error .decodeError
    | some u => .ok u

/-- The handler registered by `ListenForWebhook`: on a `HandleUpdate`
error it writes a 400 response and publishes nothing; on success it sends
the decoded update to the channel. Returns the published list and the
error reported to the HTTP layer, if any. -/
def webhookHandler (r : WebhookRequest) (published : List Update) :
    List Update × Option HandleError :=
  match HandleUpdate r with
  | .error e => (published, some e)
  | .ok u => (published ++ [u], none)

/-- The `url.Values` built by `GetUpdates`, as an ordered list of
key/value pairs: `offset` is added when `config.Offset != 0`, `limit`
when `config.Limit > 0`, `timeout` when `config.Timeout > 0`. -/
def GetUpdatesParams (config : UpdateConfig) : List (String × String) :=
  (if config.Offset ≠ 0 then [("offset", toString config.Offset)] else []) ++
  (if config.Limit > 0 then [("limit", toString config.Limit)] else []) ++
  (if config.Timeout > 0 then [("timeout", toString config.Timeout)] else [])

/-! ### Lemmas about one batch pass -/

theorem processBatch_nil (offset : Int) : processBatch offset [] = (offset, []) := rfl

theorem processBatch_cons (offset : Int) (u : Update) (rest : List Update) :
    processBatch offset (u :: rest) =
      if u.UpdateID ≥ offset then
        ((processBatch (u.UpdateID + 1) rest).1,
          u :: (processBatch (u.UpdateID + 1) rest).2)
      else processBatch offset rest := rfl

/-- The offset never decreases across one batch pass. -/
theorem processBatch_fst_mono (batch : List Update) (offset : Int) :
    offset ≤ (processBatch offset batch).1 := by
  induction batch generalizing offset with
  | nil => simp [processBatch_nil]
  | cons u rest ih =>
    rw [processBatch_cons]
    split
    · exact le_trans (by omega) (ih (u.UpdateID + 1))
    · exact ih offset

/-- Every update published by one batch pass has `UpdateID ≥` the offset
at the start of the pass. -/
theorem processBatch_snd_ge (batch : List Update) (offset : Int) :
    ∀ u ∈ (processBatch offset batch).2, offset ≤ u.UpdateID := by
  induction batch generalizing offset with
  | nil => simp [processBatch_nil]
  | cons u rest ih =>
    rw [processBatch_cons]
    split
    · intro v hv
      rcases List.mem_cons.mp hv with h | h
      · subst h; omega
      · have := ih (u.UpdateID + 1) v h
        omega
    · exact ih offset

/-- After one batch pass the offset either is unchanged (nothing
published) or equals the last published update's `UpdateID + 1`. -/
theorem processBatch_fst_spec (batch : List Update) (offset : Int) :
    ((processBatch offset batch).2 = [] ∧ (processBatch offset batch).1 = offset) ∨
    (∃ l, (processBatch offset batch).2.getLast? = some l ∧
      (processBatch offset batch).1 = l.UpdateID + 1) := by
  induction batch generalizing offset with
  | nil => simp [processBatch_nil]
  | cons u rest ih =>
    rw [processBatch_cons]
    split
    · rcases ih (u.UpdateID + 1) with ⟨h2, h1⟩ | ⟨l, hl, h1⟩
      · right
        exact ⟨u, by simp [h2], by simpa using h1⟩
      · right
        refine ⟨l, ?_, h1⟩
        cases h : (processBatch (u.UpdateID + 1) rest).2 with
        | nil => rw [h] at hl; simp at hl
        | cons a as =>
          rw [h] at hl
          show (u :: a :: as).getLast? = some l
          rw [List.getLast?_cons_cons]
          exact hl
    · exact ih offset

/-- The updates published by one batch pass have strictly increasing
`UpdateID`s, whatever order the batch arrived in. -/
theorem processBatch_snd_pairwise (batch : List Update) (offset : Int) :
    ((processBatch offset batch).2).Pairwise (fun a b => a.UpdateID < b.UpdateID) := by
  induction batch generalizing offset with
  | nil => simp [processBatch_nil]
  | cons u rest ih =>
    rw [processBatch_cons]
    split
    · refine List.pairwise_cons.mpr ⟨?_, ih (u.UpdateID + 1)⟩
      intro v hv
      have := processBatch_snd_ge rest (u.UpdateID + 1) v hv
      omega
    · exact ih offset

/-- Every update of the batch — published or dropped — has `UpdateID`
strictly below the offset left by the pass. -/
theorem processBatch_fst_gt (batch : List Update) (offset : Int) :
    ∀ u ∈ batch, u.UpdateID < (processBatch offset batch).1 := by
  induction batch generalizing offset with
  | nil => simp
  | cons u rest ih =>
    intro v hv
    rw [processBatch_cons]
    rcases List.mem_cons.mp hv with h | h
    · subst h
      split
      · have := processBatch_fst_mono rest (v.UpdateID + 1)
        omega
      · have := processBatch_fst_mono rest offset
        omega
    · split
      · exact ih (u.UpdateID + 1) v h
      · exact ih offset v h

/-- A batch whose updates all lie below the offset is dropped whole: the
pass publishes nothing and leaves the offset unchanged. -/
theorem processBatch_all_lt (batch : List Update) (offset : Int)
    (h : ∀ u ∈ batch, u.UpdateID < offset) :
    processBatch offset batch = (offset, []) := by
  induction batch with
  | nil => rfl
  | cons u rest ih =>
    rw [processBatch_cons]
    have hu := h u (by simp)
    rw [if_neg (by omega)]
    exact ih fun v hv => h v (List.mem_cons_of_mem u hv)

/-- A batch with strictly increasing `UpdateID`s all `≥ offset` is
published whole, in order, and the pass leaves the offset at the last
`UpdateID + 1`. -/
theorem processBatch_all_ge (batch : List Update) (offset : Int) (l : Update)
    (hsorted : batch.Pairwise (fun a b => a.UpdateID < b.UpdateID))
    (hge : ∀ u ∈ batch, offset ≤ u.UpdateID)
    (hlast : batch.getLast? = some l) :
    processBatch offset batch = (l.UpdateID + 1, batch) := by
  induction batch generalizing offset with
  | nil => simp at hlast
  | cons u rest ih =>
    rw [processBatch_cons, if_pos (hge u (by simp))]
    rcases List.pairwise_cons.mp hsorted with ⟨hu, hrest⟩
    cases rest with
    | nil =>
      simp only [List.getLast?_singleton, Option.some.injEq] at hlast
      subst hlast
      simp [processBatch_nil]
    | cons a as =>
      rw [List.getLast?_cons_cons] at hlast
      have hge2 : ∀ v ∈ a :: as, u.UpdateID + 1 ≤ v.UpdateID := by
        intro v hv
        have := hu v hv
        omega
      have := ih (u.UpdateID + 1) hrest hge2 hlast
      rw [this]

/-- Every update published by one batch pass is an element of the batch. -/
theorem processBatch_snd_subset (batch : List Update) (offset : Int) :
    ∀ u ∈ (processBatch offset batch).2, u ∈ batch := by
  induction batch generalizing offset with
  | nil => simp [processBatch_nil]
  | cons u rest ih =>
    rw [processBatch_cons]
    split
    · intro v hv
      rcases List.mem_cons.mp hv with h | h
      · simp [h]
      · exact List.mem_cons_of_mem u (ih (u.UpdateID + 1) v h)
    · intro v hv
      exact List.mem_cons_of_mem u (ih offset v hv)

/-! ### Lemmas about the polling loop -/

theorem loopRun_nil (s : LoopState) : loopRun [] s = s := rfl

theorem loopRun_cons (stop : Bool) (fr : FetchResult)
    (rest : List (Bool × FetchResult)) (s : LoopState) :
    loopRun ((stop, fr) :: rest) s = loopRun rest (loopStep stop fr s) := rfl

theorem loopRun_append (t₁ t₂ : List (Bool × FetchResult)) (s : LoopState) :
    loopRun (t₁ ++ t₂) s = loopRun t₂ (loopRun t₁ s) := by
  induction t₁ generalizing s with
  | nil => rfl
  | cons p rest ih =>
    obtain ⟨stop, fr⟩ := p
    rw [List.cons_append, loopRun_cons, loopRun_cons, ih]

/-- One loop iteration never decreases the offset cursor. -/
theorem loopStep_offset_mono (stop : Bool) (fr : FetchResult) (s : LoopState) :
    s.offset ≤ (loopStep stop fr s).offset := by
  unfold loopStep
  split
  · exact le_refl _
  · split
    · exact le_refl _
    · cases fr with
      | failure => exact le_refl _
      | success batch => exact processBatch_fst_mono batch s.offset

/-- Across any run of the loop the offset cursor never decreases. -/
theorem loopRun_offset_mono (trace : List (Bool × FetchResult)) (s : LoopState) :
    s.offset ≤ (loopRun trace s).offset := by
  induction trace generalizing s with
  | nil => exact le_refl _
  | cons p rest ih =>
    obtain ⟨stop, fr⟩ := p
    rw [loopRun_cons]
    exact le_trans (loopStep_offset_mono stop fr s) (ih (loopStep stop fr s))

/-- The offset/published invariant of a polling session started at
`init`: either nothing has been delivered and the cursor still equals
`init`, or the cursor equals the last delivered update's `UpdateID + 1`
and that update has the maximum `UpdateID` among those delivered. -/
def offsetInvariant (init : Int) (s : LoopState) : Prop :=
  (s.published = [] ∧ s.offset = init) ∨
  (∃ l, s.published.getLast? = some l ∧ s.offset = l.UpdateID + 1 ∧
    ∀ u ∈ s.published, u.UpdateID ≤ l.UpdateID)

/-- One loop iteration preserves the offset/published invariant. -/
theorem loopStep_invariant (init : Int) (stop : Bool) (fr : FetchResult)
    (s : LoopState) (hinv : offsetInvariant init s) :
    offsetInvariant init (loopStep stop fr s) := by
  unfold loopStep
  split
  · exact hinv
  · split
    · exact hinv
    · cases fr with
      | failure => exact hinv
      | success batch =>
        rcases processBatch_fst_spec batch s.offset with ⟨h2, h1⟩ | ⟨l', hl', h1⟩
        · rcases hinv with ⟨hp, ho⟩ | ⟨l, hl, ho, hmax⟩
          · refine Or.inl ⟨by simp [h2, hp], ?_⟩
            show (processBatch s.offset batch).1 = init
            rw [h1, ho]
          · refine Or.inr ⟨l, by simp [h2, hl], ?_, by simpa [h2] using hmax⟩
            show (processBatch s.offset batch).1 = l.UpdateID + 1
            rw [h1, ho]
        · right
          refine ⟨l', ?_, by simpa using h1, ?_⟩
          · simp only [List.getLast?_append, hl', Option.or_some]
          · intro u hu
            simp only [List.mem_append] at hu
            rcases hu with hu | hu
            · have hl'mem := List.mem_of_getLast?_eq_some hl'
              have hl'ge := processBatch_snd_ge batch s.offset l' hl'mem
              rcases hinv with ⟨hp, ho⟩ | ⟨l, hl, ho, hmax⟩
              · rw [hp] at hu; simp at hu
              · have := hmax u hu
                omega
            · have := processBatch_snd_subset batch s.offset u hu
              have := processBatch_fst_gt batch s.offset u this
              omega

/-- Any run of the loop preserves the offset/published invariant. -/
theorem loopRun_invariant (init : Int) (trace : List (Bool × FetchResult))
    (s : LoopState) (hinv : offsetInvariant init s) :
    offsetInvariant init (loopRun trace s) := by
  induction trace generalizing s with
  | nil => exact hinv
  | cons p rest ih =>
    obtain ⟨stop, fr⟩ := p
    rw [loopRun_cons]
    exact ih _ (loopStep_invariant init stop fr s hinv)

/-! ### Claim theorems -/

/-- C1: for a fetched batch with strictly increasing `UpdateID`s all at
or above the current offset, one iteration of the polling loop publishes
exactly the whole batch to the output queue in order, and afterwards the
offset cursor equals the last `UpdateID` plus 1. -/
theorem C1_batch_published_in_order (s : LoopState) (batch : List Update)
    (l : Update) (hnc : s.closed = false)
    (hsorted : batch.Pairwise (fun a b => a.UpdateID < b.UpdateID))
    (hge : ∀ u ∈ batch, s.offset ≤ u.UpdateID)
    (hlast : batch.getLast? = some l) :
    loopStep false (.success batch) s =
      { s with offset := l.UpdateID + 1, published := s.published ++ batch } := by
  have h := processBatch_all_ge batch s.offset l hsorted hge hlast
  simp [loopStep, hnc, h]

theorem C1_witness :
    (initState 0).closed = false ∧
    loopStep false (.success [⟨5, .message⟩, ⟨6, .message⟩]) (initState 0) =
      { offset := 7, published := [⟨5, .message⟩, ⟨6, .message⟩],
        closed := false, slept := 0 } := by
  have h := C1_batch_published_in_order (initState 0)
    [⟨5, .message⟩, ⟨6, .message⟩] ⟨6, .message⟩ rfl
    (by decide) (by decide) rfl
  exact ⟨rfl, by rw [h]; decide⟩

/-- C2: a fetched update whose `UpdateID` is strictly below the current
offset is never among the updates the pass publishes, and a loop
iteration whose batch consists of such an update publishes nothing and
leaves the state — in particular the offset — unchanged. -/
theorem C2_stale_update_dropped (s : LoopState) (batch : List Update)
    (u : Update) (hnc : s.closed = false) (hlt : u.UpdateID < s.offset) :
    u ∉ (processBatch s.offset batch).2 ∧
    loopStep false (.success [u]) s = s := by
  constructor
  · intro hmem
    have := processBatch_snd_ge batch s.offset u hmem
    omega
  · obtain ⟨o, p, c, sl⟩ := s
    simp only at hnc hlt
    subst hnc
    have h : processBatch o [u] = (o, []) := by
      refine processBatch_all_lt [u] o ?_
      intro v hv
      rw [List.mem_singleton.mp hv]
      exact hlt
    simp [loopStep, h]

theorem C2_witness :
    (initState 10).closed = false ∧ (3 : Int) < (initState 10).offset ∧
    (⟨3, .message⟩ : Update) ∉ (processBatch (initState 10).offset
      [⟨3, .message⟩, ⟨12, .message⟩]).2 ∧
    loopStep false (.success [⟨3, .message⟩]) (initState 10) = initState 10 := by
  have h := C2_stale_update_dropped (initState 10)
    [⟨3, .message⟩, ⟨12, .message⟩] ⟨3, .message⟩ rfl (by decide)
  exact ⟨rfl, by decide, h.1, h.2⟩

/-- C3: the claim expects the shutdown branch of the `GetUpdatesChan`
goroutine to close the output channel exactly once, with no panic. The
code runs the explicit `close(ch)` of the shutdown branch and then the
goroutine's `defer close(ch)` on the same channel: the first close keeps
the buffered updates retrievable, but the deferred second close panics
with `close of closed channel`. -/
theorem C3_shutdown_double_close_panics :
    chanClose { capacity := 100, buf := [⟨5, .message⟩, ⟨6, .message⟩],
                closed := false } =
      .ok { capacity := 100, buf := [⟨5, .message⟩, ⟨6, .message⟩],
            closed := true } ∧
    shutdownPath { capacity := 100, buf := [⟨5, .message⟩, ⟨6, .message⟩],
                   closed := false } =
      .error .closeOfClosedChannel :=
  ⟨rfl, rfl⟩

/-- C4: fetch failures are contained. `N` consecutive failed iterations
change nothing but the accumulated 3-second backoff sleeps — nothing is
published, the channel is not closed, the offset is unchanged — and a
subsequent successful fetch still publishes its batch. -/
theorem C4_fetch_failures_contained (s : LoopState) (hnc : s.closed = false)
    (N : Nat) (batch : List Update) :
    loopRun (List.replicate N (false, .failure)) s =
      { s with slept := s.slept + retryDelaySeconds * N } ∧
    loopRun (List.replicate N (false, .failure) ++ [(false, .success batch)]) s =
      { s with offset := (processBatch s.offset batch).1,
               published := s.published ++ (processBatch s.offset batch).2,
               slept := s.slept + retryDelaySeconds * N } := by
  have hfail : ∀ (n : Nat) (t : LoopState), t.closed = false →
      loopRun (List.replicate n (false, .failure)) t =
        { t with slept := t.slept + retryDelaySeconds * n } := by
    intro n
    induction n with
    | zero => intro t ht; simp [loopRun_nil]
    | succ m ih =>
      intro t ht
      rw [List.replicate_succ, loopRun_cons]
      have hstep : loopStep false .failure t =
          { t with slept := t.slept + retryDelaySeconds } := by
        simp [loopStep, ht]
      rw [hstep, ih _ (by simp [ht])]
      simp [LoopState.mk.injEq]
      ring
  have h1 := hfail N s hnc
  refine ⟨h1, ?_⟩
  rw [loopRun_append, h1, loopRun_cons, loopRun_nil]
  simp [loopStep, hnc]

theorem C4_witness :
    (initState 0).closed = false ∧
    loopRun (List.replicate 2 (false, .failure) ++ [(false, .success [⟨1, .message⟩])])
        (initState 0) =
      { offset := 2, published := [⟨1, .message⟩], closed := false, slept := 6 } := by
  have h := C4_fetch_failures_contained (initState 0) rfl 2 [⟨1, .message⟩]
  exact ⟨rfl, by rw [h.2]; decide⟩

/-- C5: across any polling session started from the caller-supplied
initial offset, extending the run never decreases the offset cursor, and
at every iteration boundary the cursor either still equals the initial
value with nothing delivered, or equals the maximum `UpdateID` delivered
so far plus 1. -/
theorem C5_offset_monotone_invariant (init : Int)
    (t₁ t₂ : List (Bool × FetchResult)) :
    (loopRun t₁ (initState init)).offset ≤
      (loopRun (t₁ ++ t₂) (initState init)).offset ∧
    offsetInvariant init (loopRun t₁ (initState init)) := by
  constructor
  · rw [loopRun_append]
    exact loopRun_offset_mono t₂ (loopRun t₁ (initState init))
  · exact loopRun_invariant init t₁ (initState init) (Or.inl ⟨rfl, rfl⟩)

/-- C6: re-processing a batch after the pass over it has advanced the
offset publishes nothing (idempotence), and the concrete session with
initial offset 0 and fetches `[5,6]`, `[6,7]`, then empty forever
publishes exactly updates 5, 6, 7 once each in order and ends with
offset 8. -/
theorem C6_idempotent_reprocessing (offset : Int) (batch : List Update) :
    processBatch (processBatch offset batch).1 batch =
      ((processBatch offset batch).1, []) ∧
    (∀ n : Nat,
      loopRun ([(false, .success [⟨5, .message⟩, ⟨6, .message⟩]),
                (false, .success [⟨6, .message⟩, ⟨7, .message⟩])] ++
          List.replicate n (false, .success [])) (initState 0) =
        { offset := 8,
          published := [⟨5, .message⟩, ⟨6, .message⟩, ⟨7, .message⟩],
          closed := false, slept := 0 }) := by
  constructor
  · refine processBatch_all_lt batch (processBatch offset batch).1 ?_
    exact processBatch_fst_gt batch offset
  · intro n
    rw [loopRun_append]
    have hbase : loopRun [(false, .success [⟨5, .message⟩, ⟨6, .message⟩]),
        (false, .success [⟨6, .message⟩, ⟨7, .message⟩])] (initState 0) =
        { offset := 8,
          published := [⟨5, .message⟩, ⟨6, .message⟩, ⟨7, .message⟩],
          closed := false, slept := 0 } := by decide
    rw [hbase]
    induction n with
    | zero => rfl
    | succ m ih =>
      rw [List.replicate_succ, loopRun_cons]
      have hstep : loopStep false (.success [])
          ({ offset := 8,
             published := [⟨5, .message⟩, ⟨6, .message⟩, ⟨7, .message⟩],
             closed := false, slept := 0 } : LoopState) =
          { offset := 8,
            published := [⟨5, .message⟩, ⟨6, .message⟩, ⟨7, .message⟩],
            closed := false, slept := 0 } := by decide
      rw [hstep, ih]

/-- C7: a non-POST webhook delivery yields the method error and
publishes nothing; a POST delivery whose body fails to decode yields
the decode error — distinct from the method error — and publishes
nothing; a POST delivery whose body decodes to an update publishes
exactly that one update. -/
theorem C7_webhook_ingest_outcomes (r : WebhookRequest)
    (published : List Update) :
    (r.Method ≠ "POST" →
      HandleUpdate r = .error .wrongMethod ∧
      webhookHandler r published = (published, some .wrongMethod)) ∧
    (r.Method = "POST" → r.body = none →
      HandleUpdate r = .error .decodeError ∧
      webhookHandler r published = (published, some .decodeError)) ∧
    (∀ u, r.Method = "POST" → r.body = some u →
      HandleUpdate r = .ok u ∧
      webhookHandler r published = (published ++ [u], none)) ∧
    HandleError.decodeError ≠ HandleError.wrongMethod := by
  refine ⟨?_, ?_, ?_, by decide⟩
  · intro hm
    have h : HandleUpdate r = .error .wrongMethod := by
      simp [HandleUpdate, hm]
    exact ⟨h, by simp [webhookHandler, h]⟩
  · intro hm hb
    have h : HandleUpdate r = .error .decodeError := by
      simp [HandleUpdate, hm, hb]
    exact ⟨h, by simp [webhookHandler, h]⟩
  · intro u hm hb
    have h : HandleUpdate r = .ok u := by
      simp [HandleUpdate, hm, hb]
    exact ⟨h, by simp [webhookHandler, h]⟩

theorem C7_witness :
    (HandleUpdate { Method := "GET", body := some ⟨5, .message⟩ } =
        .error .wrongMethod ∧
      webhookHandler { Method := "GET", body := some ⟨5, .message⟩ } [] =
        ([], some .wrongMethod)) ∧
    (HandleUpdate { Method := "POST", body := none } = .error .decodeError ∧
      webhookHandler { Method := "POST", body := none } [] =
        ([], some .decodeError)) ∧
    (HandleUpdate { Method := "POST", body := some ⟨5, .message⟩ } =
        .ok ⟨5, .message⟩ ∧
      webhookHandler { Method := "POST", body := some ⟨5, .message⟩ } [] =
        ([⟨5, .message⟩], none)) :=
  ⟨(C7_webhook_ingest_outcomes { Method := "GET", body := some ⟨5, .message⟩ }
      []).1 (by decide),
   (C7_webhook_ingest_outcomes { Method := "POST", body := none } []).2.1
      rfl rfl,
   (C7_webhook_ingest_outcomes { Method := "POST", body := some ⟨5, .message⟩ }
      []).2.2.1 ⟨5, .message⟩ rfl rfl⟩

/-- C8: the bot value is constructed with output buffer capacity 100,
the channels created by the polling loop and the webhook listener have
capacity equal to the bot's configured buffer, and a send on a full
channel blocks the producer (returns no new channel state) instead of
dropping the update. -/
theorem C8_bounded_output_queue (token apiEndpoint : String) (bot : BotAPI)
    (c : Chan) (u : Update) (hfull : c.buf.length = c.capacity) :
    (NewBotAPIWithClient token apiEndpoint).Buffer = 100 ∧
    (GetUpdatesChanChannel bot).capacity = bot.Buffer ∧
    (ListenForWebhookChannel bot).capacity = bot.Buffer ∧
    chanSend c u = none := by
  refine ⟨rfl, rfl, rfl, ?_⟩
  simp [chanSend, hfull]

theorem C8_witness :
    ((⟨1, [⟨1, .message⟩], false⟩ : Chan)).buf.length =
      ((⟨1, [⟨1, .message⟩], false⟩ : Chan)).capacity ∧
    (NewBotAPIWithClient "token" "endpoint").Buffer = 100 ∧
    (GetUpdatesChanChannel (NewBotAPIWithClient "token" "endpoint")).capacity =
      (NewBotAPIWithClient "token" "endpoint").Buffer ∧
    (ListenForWebhookChannel (NewBotAPIWithClient "token" "endpoint")).capacity =
      (NewBotAPIWithClient "token" "endpoint").Buffer ∧
    chanSend ⟨1, [⟨1, .message⟩], false⟩ ⟨2, .message⟩ = none := by
  have h := C8_bounded_output_queue "token" "endpoint"
    (NewBotAPIWithClient "token" "endpoint")
    ⟨1, [⟨1, .message⟩], false⟩ ⟨2, .message⟩ rfl
  exact ⟨rfl, h.1, h.2.1, h.2.2.1, h.2.2.2⟩

/-- C9: for any request whose method is not POST, `HandleUpdate` returns
the method error whatever the body holds — the body's decode outcome,
even a well-formed update, is never consulted. -/
theorem C9_method_error_ignores_body (m : String) (body : Option Update)
    (hm : m ≠ "POST") :
    HandleUpdate { Method := m, body := body } = .error .wrongMethod := by
  simp [HandleUpdate, hm]

theorem C9_witness :
    ("GET" : String) ≠ "POST" ∧
    HandleUpdate { Method := "GET", body := some ⟨5, .message⟩ } =
      .error .wrongMethod :=
  ⟨by decide, C9_method_error_ignores_body "GET" (some ⟨5, .message⟩) (by decide)⟩

/-- C10: `GetUpdates` puts `offset` into the request parameters exactly
when the configured offset is nonzero (negative included), and puts
`limit` and `timeout` in exactly when they are strictly positive; a zero
offset and a non-positive limit or timeout are omitted entirely. -/
theorem C10_getUpdates_param_inclusion (config : UpdateConfig) :
    ((∃ v, ("offset", v) ∈ GetUpdatesParams config) ↔ config.Offset ≠ 0) ∧
    ((∃ v, ("limit", v) ∈ GetUpdatesParams config) ↔ 0 < config.Limit) ∧
    ((∃ v, ("timeout", v) ∈ GetUpdatesParams config) ↔ 0 < config.Timeout) := by
  by_cases h1 : config.Offset ≠ 0 <;>
    by_cases h2 : 0 < config.Limit <;>
      by_cases h3 : 0 < config.Timeout <;>
        simp [GetUpdatesParams, h1, h2, h3]

end TgBotApi
